import Mathlib

/-!
Verification of the codebase serialization/parsing pipeline.

This file gives a shallow embedding of the Python sources
`codebase_pipeline.py`, `pipeline.py` and `path/to/file.ext` (the
`CodebasePipeline` classes) and proves/refutes the frozen claims about
them.  Filesystem walks, the chat-completion endpoint and the logging
subsystem are external collaborators: their results (files found, LLM
reply or authentication failure) are passed to the embedded functions as
arguments, and the side effects the orchestrator performs are recorded
in an explicit effect trace.

String primitives used by the sources (`str.split('\n')`, `'\n'.join`,
`str.strip()`, `str.startswith`, `str.endswith`, slicing, `in`) are
embedded first, as executable Lean functions with the exact Python
semantics.
-/

namespace PyStr

/-- Embedding of Python `s.split('\n')` at the character-list level:
`[[]]` on the empty list, and each `'\n'` starts a new chunk. -/
def splitNlAux : List Char → List (List Char)
  | [] => [[]]
  | c :: cs =>
    if c = '\n' then [] :: splitNlAux cs
    else
      match splitNlAux cs with
      | [] => [[c]]
      | h :: t => (c :: h) :: t

/-- Embedding of Python `response.split('\n')`. -/
def splitNl (s : String) : List String :=
  (splitNlAux s.data).map (fun l => String.mk l)

/-- Embedding of Python `sep.join(xs)` at the string level. -/
def pyJoin (sep : String) : List String → String
  | [] => ""
  | [s] => s
  | s :: rest => s ++ sep ++ pyJoin sep rest

/-- Embedding of Python `'\n'.join(xs)`. -/
def joinNl (xs : List String) : String := pyJoin "\n" xs

/-- Character-list version of `'\n'.join`, used to reason about
`joinNl` through `String.data`. -/
def joinNlData : List (List Char) → List Char
  | [] => []
  | [x] => x
  | x :: xs => x ++ '\n' :: joinNlData xs

/-- Embedding of Python `s.strip()`: drop trailing, then leading
whitespace characters. -/
def stripChars (l : List Char) : List Char :=
  ((l.reverse.dropWhile Char.isWhitespace).reverse).dropWhile Char.isWhitespace

/-- Embedding of Python `s.strip()` on strings. -/
def pyStrip (s : String) : String := String.mk (stripChars s.data)

/-- Embedding of Python `s.startswith(t)`. -/
def pyStartsWith (s t : String) : Bool := decide (t.data <+: s.data)

/-- Embedding of Python `s.endswith(t)`. -/
def pyEndsWith (s t : String) : Bool := decide (t.data <:+ s.data)

/-- Embedding of the Python slice `s[4:-4]` (empty when `len(s) ≤ 8`). -/
def sliceMid (s : String) : String :=
  String.mk ((s.data.drop 4).take (s.data.length - 8))

/-- Embedding of Python `ch in s` for a character and a string. -/
def pyContainsChar (s : String) (c : Char) : Bool := s.data.contains c

/-- Embedding of a Python `dict` as an ordered association list;
`insertA` is `d[k] = v`: an existing key is updated in place, a new key
is appended at the end. -/
def insertA : List (String × String) → String → String → List (String × String)
  | [], k, v => [(k, v)]
  | (k', v') :: rest, k, v =>
    if k' = k then (k', v) :: rest else (k', v') :: insertA rest k v

/-- Lookup in the association-list embedding of a Python `dict`. -/
def lookupA : List (String × String) → String → Option String
  | [], _ => none
  | (k', v') :: rest, k => if k' = k then some v' else lookupA rest k

theorem splitNlAux_ne_nil (l : List Char) : splitNlAux l ≠ [] := by
  induction l with
  | nil => simp [splitNlAux]
  | cons c cs ih =>
    simp only [splitNlAux]
    split
    · simp
    · split
      · simp
      · simp

theorem splitNlAux_append (l₁ l₂ : List Char) :
    splitNlAux (l₁ ++ '\n' :: l₂) = splitNlAux l₁ ++ splitNlAux l₂ := by
  induction l₁ with
  | nil => simp [splitNlAux]
  | cons c cs ih =>
    by_cases hc : c = '\n'
    · subst hc
      simp [splitNlAux, ih]
    · rcases h : splitNlAux cs with _ | ⟨h₁, t₁⟩
      · exact absurd h (splitNlAux_ne_nil cs)
      · show splitNlAux (c :: (cs ++ '\n' :: l₂)) = splitNlAux (c :: cs) ++ splitNlAux l₂
        simp only [splitNlAux, if_neg hc]
        rw [ih, h]
        simp

theorem splitNlAux_no_nl (l : List Char) (h : '\n' ∉ l) :
    splitNlAux l = [l] := by
  induction l with
  | nil => rfl
  | cons c cs ih =>
    simp only [List.mem_cons, not_or] at h
    obtain ⟨h1, h2⟩ := h
    have hc : ¬ c = '\n' := fun he => h1 he.symm
    simp only [splitNlAux, if_neg hc, ih h2]

theorem joinNlData_splitNlAux (l : List Char) :
    joinNlData (splitNlAux l) = l := by
  induction l with
  | nil => rfl
  | cons c cs ih =>
    by_cases hc : c = '\n'
    · subst hc
      simp only [splitNlAux, if_pos rfl]
      rcases h : splitNlAux cs with _ | ⟨h₁, t₁⟩
      · exact absurd h (splitNlAux_ne_nil cs)
      · rw [h] at ih
        simp [joinNlData, ih]
    · simp only [splitNlAux, if_neg hc]
      rcases h : splitNlAux cs with _ | ⟨h₁, t₁⟩
      · exact absurd h (splitNlAux_ne_nil cs)
      · rw [h] at ih
        cases t₁ with
        | nil => simp_all [joinNlData]
        | cons y ys => simp_all [joinNlData]

theorem joinNlData_append_nil (ll : List (List Char)) (h : ll ≠ []) :
    joinNlData (ll ++ [[]]) = joinNlData ll ++ ['\n'] := by
  induction ll with
  | nil => exact absurd rfl h
  | cons x xs ih =>
    cases xs with
    | nil => simp [joinNlData]
    | cons y ys =>
      have ih' := ih (by simp)
      simp only [List.cons_append] at ih' ⊢
      simp only [joinNlData, ih']
      simp [joinNlData]

theorem joinNl_map_mk (ll : List (List Char)) :
    joinNl (ll.map (fun l => String.mk l)) = String.mk (joinNlData ll) := by
  induction ll with
  | nil => rfl
  | cons x xs ih =>
    cases xs with
    | nil => rfl
    | cons y ys =>
      show String.mk x ++ "\n" ++ joinNl ((y :: ys).map (fun l => String.mk l))
          = String.mk (joinNlData (x :: y :: ys))
      rw [ih]
      apply String.ext
      simp only [String.data_append, List.append_assoc, List.singleton_append]
      rfl

theorem joinNl_splitNl (s : String) : joinNl (splitNl s) = s := by
  rw [splitNl, joinNl_map_mk, joinNlData_splitNlAux]

theorem joinNl_splitNl_append_empty (s : String) :
    joinNl (splitNl s ++ [""]) = s ++ "\n" := by
  have h1 : splitNl s ++ [""] = (splitNlAux s.data ++ [[]]).map
      (fun l => String.mk l) := by
    simp [splitNl]
  rw [h1, joinNl_map_mk, joinNlData_append_nil _ (splitNlAux_ne_nil s.data),
    joinNlData_splitNlAux]
  apply String.ext
  rw [String.data_append, show ("\n" : String).data = ['\n'] from rfl]

theorem stripChars_append_nl (l : List Char) :
    stripChars (l ++ ['\n']) = stripChars l := by
  simp [stripChars, List.dropWhile]

theorem pyStrip_append_nl (s : String) : pyStrip (s ++ "\n") = pyStrip s := by
  apply String.ext
  show stripChars (s ++ "\n").data = stripChars s.data
  rw [String.data_append, show ("\n" : String).data = ['\n'] from rfl,
    stripChars_append_nl]

theorem splitNl_append (a b : String) :
    splitNl (a ++ "\n" ++ b) = splitNl a ++ splitNl b := by
  simp only [splitNl]
  rw [String.data_append, String.data_append,
    show ("\n" : String).data = ['\n'] from rfl, List.append_assoc,
    List.singleton_append, splitNlAux_append, List.map_append]

theorem splitNl_no_nl (s : String) (h : '\n' ∉ s.data) : splitNl s = [s] := by
  simp [splitNl, splitNlAux_no_nl s.data h]

theorem insertA_fresh (cb : List (String × String)) (k v : String)
    (h : k ∉ cb.map Prod.fst) : insertA cb k v = cb ++ [(k, v)] := by
  induction cb with
  | nil => rfl
  | cons x xs ih =>
    obtain ⟨k', v'⟩ := x
    simp only [List.map_cons, List.mem_cons, not_or] at h
    obtain ⟨h1, h2⟩ := h
    simp only [insertA, List.cons_append]
    rw [if_neg (fun he : k' = k => h1 he.symm), ih h2]

theorem insertA_length_le (cb : List (String × String)) (k v : String) :
    (insertA cb k v).length ≤ cb.length + 1 := by
  induction cb with
  | nil => simp [insertA]
  | cons x xs ih =>
    obtain ⟨k', v'⟩ := x
    simp only [insertA]
    split
    · simp
    · simpa using Nat.succ_le_succ ih

theorem insertA_keys_of_ne (cb : List (String × String)) (k v key : String)
    (hne : k ≠ key) :
    (key ∈ (insertA cb k v).map Prod.fst) ↔ key ∈ cb.map Prod.fst := by
  induction cb with
  | nil =>
    simp only [insertA, List.map_cons, List.map_nil, List.mem_singleton,
      List.not_mem_nil, iff_false]
    exact fun he => hne he.symm
  | cons x xs ih =>
    obtain ⟨k', v'⟩ := x
    simp only [insertA]
    split
    · next he => simp [he]
    · simp [ih]

theorem lookupA_eq_none (cb : List (String × String)) (k : String)
    (h : k ∉ cb.map Prod.fst) : lookupA cb k = none := by
  induction cb with
  | nil => rfl
  | cons x xs ih =>
    obtain ⟨k', v'⟩ := x
    simp only [List.map_cons, List.mem_cons, not_or] at h
    obtain ⟨h1, h2⟩ := h
    simp only [lookupA]
    rw [if_neg (fun he : k' = k => h1 he.symm)]
    exact ih h2

end PyStr

namespace codebase_pipeline

open PyStr

/-- Embedding of `codebase_pipeline.CodebasePipeline.format_codebase`:
each file is rendered as `=== <path> ===\n<content>\n` and the blocks
are joined with `'\n'`. -/
def format_codebase (codebase : List (String × String)) : String :=
  joinNl (codebase.map (fun pc => "=== " ++ pc.1 ++ " ===" ++ "\n" ++ pc.2 ++ "\n"))

/-- The test `line.startswith('=== ') and line.endswith(' ===')` from
`parse_codebase_response`. -/
def isMarkerLine (line : String) : Bool :=
  pyStartsWith line "=== " && pyEndsWith line " ==="

/-- Parser state of `parse_codebase_response`: the accumulated
dictionary, `current_file` (`none` is Python `None`) and
`current_content`. -/
structure PState where
  codebase : List (String × String)
  current_file : Option String
  current_content : List String

/-- The save step `codebase[current_file] = '\n'.join(current_content).strip()`,
guarded by Python truthiness `if current_file:` (both `None` and the
empty string are falsy). -/
def saveFile (cb : List (String × String)) (cf : Option String)
    (cc : List String) : List (String × String) :=
  match cf with
  | some f => if f = "" then cb else insertA cb f (pyStrip (joinNl cc))
  | none => cb

/-- One iteration of the `for line in response.split('\n')` loop of
`codebase_pipeline.CodebasePipeline.parse_codebase_response`. -/
def parseStep (st : PState) (line : String) : PState :=
  if isMarkerLine line then
    PState.mk (saveFile st.codebase st.current_file st.current_content)
      (some (pyStrip (sliceMid line))) []
  else
    match st.current_file with
    | some f =>
      if f = "" then st
      else { st with current_content := st.current_content ++ [line] }
    | none => st

/-- The trailing `# Save last file` step of `parse_codebase_response`. -/
def finishParse (st : PState) : List (String × String) :=
  saveFile st.codebase st.current_file st.current_content

/-- Embedding of `codebase_pipeline.CodebasePipeline.parse_codebase_response`. -/
def parse_codebase_response (response : String) : List (String × String) :=
  finishParse ((splitNl response).foldl parseStep (PState.mk [] none []))

theorem isMarkerLine_header (p : String) :
    isMarkerLine ("=== " ++ p ++ " ===") = true := by
  have h1 : pyStartsWith ("=== " ++ p ++ " ===") "=== " = true := by
    simp only [pyStartsWith, String.data_append, decide_eq_true_eq]
    exact ⟨p.data ++ (" ===" : String).data, by simp⟩
  have h2 : pyEndsWith ("=== " ++ p ++ " ===") " ===" = true := by
    simp only [pyEndsWith, String.data_append, decide_eq_true_eq]
    exact ⟨("=== " : String).data ++ p.data, by simp⟩
  simp [isMarkerLine, h1, h2]

theorem sliceMid_header (p : String) :
    sliceMid ("=== " ++ p ++ " ===") = p := by
  apply String.ext
  have hd : ("=== " ++ p ++ " ===").data
      = ['=', '=', '=', ' '] ++ (p.data ++ [' ', '=', '=', '=']) := by
    rw [String.data_append, String.data_append,
      show ("=== " : String).data = ['=', '=', '=', ' '] from rfl,
      show (" ===" : String).data = [' ', '=', '=', '='] from rfl,
      List.append_assoc]
  show (((("=== " ++ p ++ " ===").data).drop 4).take
    ((("=== " ++ p ++ " ===").data).length - 8)) = p.data
  rw [hd]
  have h1 : (['=', '=', '=', ' '] ++ (p.data ++ [' ', '=', '=', '='])).drop 4
      = p.data ++ [' ', '=', '=', '='] := rfl
  have h2 : (['=', '=', '=', ' '] ++ (p.data ++ [' ', '=', '=', '='])).length - 8
      = p.data.length := by
    simp only [List.length_append, List.length_cons, List.length_nil]
    omega
  rw [h1, h2, List.take_left]

theorem header_no_nl (p : String) (hp : '\n' ∉ p.data) :
    '\n' ∉ ("=== " ++ p ++ " ===").data := by
  rw [String.data_append, String.data_append]
  intro hmem
  rcases List.mem_append.mp hmem with h | h
  · rcases List.mem_append.mp h with h' | h'
    · simp [show ("=== " : String).data = ['=', '=', '=', ' '] from rfl] at h'
    · exact hp h'
  · simp [show (" ===" : String).data = [' ', '=', '=', '='] from rfl] at h

/-- A non-marker line seen while a (truthy) file is open is appended to
`current_content`; iterated over a list of non-marker lines. -/
theorem fold_content_lines (ls : List String) (cb : List (String × String))
    (f : String) (cc : List String) (hf : f ≠ "")
    (hm : ∀ l ∈ ls, isMarkerLine l = false) :
    ls.foldl parseStep (PState.mk cb (some f) cc)
      = PState.mk cb (some f) (cc ++ ls) := by
  induction ls generalizing cc with
  | nil => simp
  | cons l ls ih =>
    have hl : isMarkerLine l = false := hm l (List.mem_cons_self l ls)
    have hrest : ∀ x ∈ ls, isMarkerLine x = false :=
      fun x hx => hm x (List.mem_cons_of_mem l hx)
    simp only [List.foldl_cons]
    rw [show parseStep (PState.mk cb (some f) cc) l
        = PState.mk cb (some f) (cc ++ [l]) by
      simp [parseStep, hl, hf]]
    rw [ih (cc ++ [l]) hrest]
    simp

end codebase_pipeline

namespace codebase_pipeline

open PyStr

/-- The exact line sequence that `format_codebase` produces for a list
of files whose paths are newline-free: header line, content lines, and
the empty line arising from the trailing `\n` of each block. -/
def blockLines : List (String × String) → List String
  | [] => []
  | pc :: rest =>
    ("=== " ++ pc.1 ++ " ===") :: (splitNl pc.2 ++ [""]) ++ blockLines rest

/-- Hypotheses under which a file entry survives the round trip: the
path is truthy (non-empty), strip-invariant and newline-free, and the
content is strip-invariant with no line matching the marker pattern. -/
def GoodEntry (pc : String × String) : Prop :=
  pc.1 ≠ "" ∧ pyStrip pc.1 = pc.1 ∧ '\n' ∉ pc.1.data ∧
  pyStrip pc.2 = pc.2 ∧ ∀ l ∈ splitNl pc.2, isMarkerLine l = false

instance (pc : String × String) : Decidable (GoodEntry pc) := by
  unfold GoodEntry
  infer_instance

theorem splitNl_block (p c : String) (hp : '\n' ∉ p.data) :
    splitNl ("=== " ++ p ++ " ===" ++ "\n" ++ c ++ "\n")
      = ("=== " ++ p ++ " ===") :: (splitNl c ++ [""]) := by
  have hdata : ("=== " ++ p ++ " ===" ++ "\n" ++ c ++ "\n").data
      = ("=== " ++ p ++ " ===").data ++ '\n' :: (c.data ++ ['\n']) := by
    simp only [String.data_append, List.append_assoc]
    rfl
  rw [splitNl, hdata, splitNlAux_append,
    splitNlAux_no_nl _ (header_no_nl p hp),
    show c.data ++ ['\n'] = c.data ++ '\n' :: ([] : List Char) from rfl,
    splitNlAux_append]
  simp only [splitNl, splitNlAux, List.map_append, List.map_cons, List.map_nil,
    List.singleton_append, List.cons_append]
  rfl

theorem splitNl_format (cb : List (String × String)) (hne : cb ≠ [])
    (hnl : ∀ pc ∈ cb, '\n' ∉ pc.1.data) :
    splitNl (format_codebase cb) = blockLines cb := by
  induction cb with
  | nil => exact absurd rfl hne
  | cons pc rest ih =>
    obtain ⟨p, c⟩ := pc
    have hp : '\n' ∉ p.data := hnl (p, c) (List.mem_cons_self _ _)
    cases rest with
    | nil =>
      show splitNl ("=== " ++ p ++ " ===" ++ "\n" ++ c ++ "\n") = blockLines [(p, c)]
      rw [splitNl_block p c hp]
      simp [blockLines]
    | cons pc' rest' =>
      have hrest : ∀ x ∈ pc' :: rest', '\n' ∉ x.1.data :=
        fun x hx => hnl x (List.mem_cons_of_mem _ hx)
      have hfmt : format_codebase ((p, c) :: pc' :: rest')
          = ("=== " ++ p ++ " ===" ++ "\n" ++ c ++ "\n") ++ "\n"
            ++ format_codebase (pc' :: rest') := rfl
      rw [hfmt, splitNl_append, splitNl_block p c hp, ih (by simp) hrest]
      simp [blockLines]

theorem nodup_head_not_mem (acc cb : List (String × String)) (p : String)
    (c : String) (hnd : ((acc ++ (p, c) :: cb).map Prod.fst).Nodup) :
    p ∉ acc.map Prod.fst := by
  intro hmem
  rw [List.map_append] at hnd
  have hdisj := (List.nodup_append.mp hnd).2.2
  exact hdisj hmem (by simp)

theorem fold_blocks (cb : List (String × String)) :
    ∀ (acc : List (String × String)) (p c : String),
    (∀ pc ∈ cb, GoodEntry pc) → GoodEntry (p, c) →
    ((acc ++ (p, c) :: cb).map Prod.fst).Nodup →
    finishParse ((blockLines cb).foldl parseStep
      (PState.mk acc (some p) (splitNl c ++ [""]))) = acc ++ (p, c) :: cb := by
  induction cb with
  | nil =>
    intro acc p c _ hg hnd
    obtain ⟨hp1, hp2, hp3, hc1, hc2⟩ := hg
    show saveFile acc (some p) (splitNl c ++ [""]) = acc ++ [(p, c)]
    simp only [saveFile, if_neg hp1]
    rw [joinNl_splitNl_append_empty, pyStrip_append_nl, hc1]
    exact insertA_fresh acc p c (nodup_head_not_mem acc [] p c hnd)
  | cons pc' rest ih =>
    intro acc p c hgs hg hnd
    obtain ⟨p', c'⟩ := pc'
    obtain ⟨hp1, hp2, hp3, hc1, hc2⟩ := hg
    have hg' : GoodEntry (p', c') := hgs (p', c') (List.mem_cons_self _ _)
    obtain ⟨hp1', hp2', hp3', hc1', hc2'⟩ := hg'
    have hstep1 : parseStep (PState.mk acc (some p) (splitNl c ++ [""]))
        ("=== " ++ p' ++ " ===")
        = PState.mk (acc ++ [(p, c)]) (some p') [] := by
      simp only [parseStep, isMarkerLine_header, if_pos]
      rw [sliceMid_header, hp2']
      congr 1
      show saveFile acc (some p) (splitNl c ++ [""]) = acc ++ [(p, c)]
      simp only [saveFile, if_neg hp1]
      rw [joinNl_splitNl_append_empty, pyStrip_append_nl, hc1]
      exact insertA_fresh acc p c (nodup_head_not_mem acc _ p c hnd)
    have hnomark : ∀ l ∈ splitNl c' ++ [""], isMarkerLine l = false := by
      intro l hl
      rcases List.mem_append.mp hl with h | h
      · exact hc2' l h
      · simp only [List.mem_singleton] at h
        subst h
        decide
    have hstep2 : (splitNl c' ++ [""]).foldl parseStep
        (PState.mk (acc ++ [(p, c)]) (some p') [])
        = PState.mk (acc ++ [(p, c)]) (some p') (splitNl c' ++ [""]) := by
      rw [fold_content_lines _ _ _ _ hp1' hnomark]
      simp
    have hassoc : (acc ++ [(p, c)]) ++ (p', c') :: rest
        = acc ++ (p, c) :: (p', c') :: rest := by
      simp
    have hgs' : ∀ pc ∈ rest, GoodEntry pc :=
      fun pc hpc => hgs pc (List.mem_cons_of_mem _ hpc)
    have hnd' : (((acc ++ [(p, c)]) ++ (p', c') :: rest).map Prod.fst).Nodup := by
      rw [hassoc]
      exact hnd
    show finishParse ((("=== " ++ p' ++ " ===") :: (splitNl c' ++ [""])
        ++ blockLines rest).foldl parseStep
        (PState.mk acc (some p) (splitNl c ++ [""]))) = _
    rw [List.foldl_append, List.foldl_cons, hstep1, hstep2,
      ih (acc ++ [(p, c)]) p' c' hgs' ⟨hp1', hp2', hp3', hc1', hc2'⟩ hnd', hassoc]

end codebase_pipeline

namespace codebase_pipeline

open PyStr

/-- Claim C1 (amended): for every codebase mapping with distinct paths
whose file contents contain no line matching the marker pattern and —
as the counterexample forces — whose paths are non-empty, newline-free
and strip-invariant and whose contents are strip-invariant (no leading
or trailing whitespace), `parse_codebase_response (format_codebase cb)`
reproduces the mapping exactly. -/
theorem c1_round_trip (cb : List (String × String))
    (hgood : ∀ pc ∈ cb, GoodEntry pc)
    (hnd : (cb.map Prod.fst).Nodup) :
    parse_codebase_response (format_codebase cb) = cb := by
  cases cb with
  | nil => decide
  | cons pc rest =>
    obtain ⟨p, c⟩ := pc
    have hpnl : ∀ x ∈ (p, c) :: rest, '\n' ∉ x.1.data :=
      fun x hx => (hgood x hx).2.2.1
    have hsplit := splitNl_format ((p, c) :: rest) (by simp) hpnl
    obtain ⟨hp1, hp2, hp3, hc1, hc2⟩ := hgood (p, c) (List.mem_cons_self _ _)
    have hstep0 : parseStep (PState.mk [] none []) ("=== " ++ p ++ " ===")
        = PState.mk [] (some p) [] := by
      simp only [parseStep, isMarkerLine_header, if_pos]
      rw [sliceMid_header, hp2]
      rfl
    have hnomark0 : ∀ l ∈ splitNl c ++ [""], isMarkerLine l = false := by
      intro l hl
      rcases List.mem_append.mp hl with h | h
      · exact hc2 l h
      · simp only [List.mem_singleton] at h
        subst h
        decide
    show finishParse ((splitNl (format_codebase ((p, c) :: rest))).foldl
      parseStep (PState.mk [] none [])) = (p, c) :: rest
    rw [hsplit]
    show finishParse (((("=== " ++ p ++ " ===") :: (splitNl c ++ [""]))
      ++ blockLines rest).foldl parseStep (PState.mk [] none [])) = (p, c) :: rest
    rw [List.foldl_append, List.foldl_cons, hstep0,
      fold_content_lines _ _ _ _ hp1 hnomark0, List.nil_append]
    have := fold_blocks rest [] p c
      (fun x hx => hgood x (List.mem_cons_of_mem _ hx))
      ⟨hp1, hp2, hp3, hc1, hc2⟩ (by simpa using hnd)
    simpa using this

/-- Claim C1 counterexample: the codebase `[("a.py", " x")]` has no
content line matching the marker pattern, yet parsing its serialization
yields `"x"` (stripped) at key `"a.py"`, not `" x"`: the mappings
differ, so the round-trip law as stated fails. -/
theorem c1_round_trip_counterexample :
    (∀ l ∈ splitNl " x", isMarkerLine l = false) ∧
    lookupA (parse_codebase_response (format_codebase [("a.py", " x")]))
      "a.py" = some "x" ∧
    lookupA (parse_codebase_response (format_codebase [("a.py", " x")]))
      "a.py" ≠ some " x" := by
  refine ⟨by decide, by decide, by decide⟩

/-- Claim C1 witness: the amended round-trip theorem applied to a
concrete two-file codebase. -/
theorem c1_round_trip_witness :
    parse_codebase_response
      (format_codebase [("a.py", "x"), ("b/c.js", "line1\nline2")])
      = [("a.py", "x"), ("b/c.js", "line1\nline2")] :=
  c1_round_trip [("a.py", "x"), ("b/c.js", "line1\nline2")]
    (by decide) (by decide)

end codebase_pipeline

namespace pipeline

open PyStr

/-- The `BEGIN_DELIMITER` constant of `pipeline.py`. -/
def BEGIN_DELIMITER : String := "~~~```"

/-- The `END_DELIMITER` constant of `pipeline.py`. -/
def END_DELIMITER : String := "```~~~"

/-- A role-tagged conversation turn. -/
structure Message where
  role : String
  content : String

/-- The mutable per-instance state of `pipeline.CodebasePipeline`:
`self.conversation_history` and `self.current_codebase`. -/
structure SessionState where
  conversation_history : List Message
  current_codebase : List (String × String)

/-- Embedding of `pipeline.CodebasePipeline.format_codebase`: each file
is rendered as `<path>\nBEGIN_DELIMITER\n<content>\nEND_DELIMITER` and
the blocks are joined with `'\n'`. -/
def format_codebase (codebase : List (String × String)) : String :=
  joinNl (codebase.map (fun pc =>
    pc.1 ++ "\n" ++ BEGIN_DELIMITER ++ "\n" ++ pc.2 ++ "\n" ++ END_DELIMITER))

/-- Parser state of `pipeline.CodebasePipeline.parse_codebase_response`. -/
structure PState where
  codebase : List (String × String)
  current_file : Option String
  current_content : List String
  text_response_lines : List String
  in_code_block : Bool

/-- One iteration of the `for line in lines` loop of
`pipeline.CodebasePipeline.parse_codebase_response`. -/
def parseStep (st : PState) (line : String) : PState :=
  if pyStartsWith (pyStrip line) BEGIN_DELIMITER then
    { st with in_code_block := true }
  else if pyStartsWith (pyStrip line) END_DELIMITER then
    match st.current_file with
    | some f =>
      if f ≠ "" ∧ st.current_content ≠ [] then
        { st with codebase := insertA st.codebase f (joinNl st.current_content),
                  current_file := none, current_content := [],
                  in_code_block := false }
      else { st with in_code_block := false }
    | none => { st with in_code_block := false }
  else if st.in_code_block then
    { st with current_content := st.current_content ++ [line] }
  else if pyStrip line ≠ "" then
    match st.current_file with
    | none =>
      if pyContainsChar (pyStrip line) '.' ∨ pyContainsChar (pyStrip line) '/' then
        { st with current_file := some (pyStrip line) }
      else { st with text_response_lines := st.text_response_lines ++ [line] }
    | some _ => { st with text_response_lines := st.text_response_lines ++ [line] }
  else st

/-- The trailing `# Save last file if exists` step plus the final
assembly of `(text_response, codebase)`. -/
def finishParse (st : PState) : String × List (String × String) :=
  (pyStrip (joinNl st.text_response_lines),
   match st.current_file with
   | some f =>
     if f ≠ "" ∧ st.current_content ≠ [] then
       insertA st.codebase f (joinNl st.current_content)
     else st.codebase
   | none => st.codebase)

/-- Embedding of `pipeline.CodebasePipeline.parse_codebase_response`. -/
def parse_codebase_response (response : String) : String × List (String × String) :=
  finishParse ((splitNl response).foldl parseStep (PState.mk [] none [] [] false))

/-- Embedding of `pipeline.CodebasePipeline.load_codebase`: the result
of the collaborator walk (`collect_codebase`) is `collected`; the
session stores it and appends the synthetic user/assistant turn pair. -/
def load_codebase (st : SessionState) (collected : List (String × String)) :
    SessionState :=
  SessionState.mk
    (st.conversation_history ++
      [Message.mk "user"
        ("Here is the codebase I\x27m working with:\n\n" ++ format_codebase collected),
       Message.mk "assistant"
        "I\x27ve reviewed the codebase. How can I help you with it?"])
    collected

/-- Embedding of `pipeline.CodebasePipeline.chat`: the user turn is
appended, then the chat-completion collaborator either fails (the
exception propagates, leaving the partially mutated state) or returns
`llm_response`; the reply is appended, parsed, and a non-empty (truthy)
parsed mapping replaces `current_codebase`. -/
def chat (st : SessionState) (message : String) (llm : Except String String) :
    SessionState × Except String (String × List (String × String)) :=
  let hist1 := st.conversation_history ++ [Message.mk "user" message]
  match llm with
  | Except.error e =>
    (SessionState.mk hist1 st.current_codebase, Except.error e)
  | Except.ok llm_response =>
    let parsed := parse_codebase_response llm_response
    (SessionState.mk (hist1 ++ [Message.mk "assistant" llm_response])
      (if parsed.2 = [] then st.current_codebase else parsed.2),
     Except.ok parsed)

/-- Embedding of `pipeline.CodebasePipeline.reset_conversation`. -/
def reset_conversation (_st : SessionState) : SessionState :=
  SessionState.mk [] []

/-- The `DEFAULT_DIRS` constant of `pipeline.py` (a Python set; only
membership is used). -/
def DEFAULT_DIRS : List String :=
  ["node_modules", ".git", "__pycache__", "venv", ".venv", "dist", "build"]

/-- Embedding of `pipeline.CodebasePipeline._should_include`: a file
path (as its list of components, `file_path.parts`) is included unless
some excluded directory name occurs among its components. -/
def _should_include (parts : List String) : Bool :=
  ! DEFAULT_DIRS.any (fun excluded => decide (excluded ∈ parts))

/-- Embedding of `str(Path)` for a relative path given as components. -/
def joinSlash (parts : List String) : String := pyJoin "/" parts

/-- Embedding of `pipeline.CodebasePipeline.collect_codebase`.  The
filesystem walk is a collaborator: `found` lists the files produced by
the `rglob` loops, each as its components relative to the root together
with `some content`, or `none` when reading raises (such a file is
skipped with a diagnostic).  The root directory has components
`rootParts`, so a found file's `file_path.parts` is
`rootParts ++ relative components`. -/
def collectStep (rootParts : List String) (cb : List (String × String))
    (e : List String × Option String) : List (String × String) :=
  if _should_include (rootParts ++ e.1) then
    match e.2 with
    | some content => insertA cb (joinSlash e.1) content
    | none => cb
  else cb

def collect_codebase (rootParts : List String)
    (found : List (List String × Option String)) : List (String × String) :=
  found.foldl (collectStep rootParts) []

/-- Side effects of `pipeline.CodebasePipeline.run`, in program order:
`logOpen`/`logWrite` are `logging.basicConfig(filename='llm_queries.log')`
opening the log file and `logging.info` writing the query line;
`collectRead` is the `collect_codebase` scan of `input_path`; `llmCall`
is the chat-completion network call; `codebaseWrite` is
`write_codebase` writing the parsed files under `output_path`. -/
inductive Effect
  | logOpen
  | logWrite
  | collectRead
  | llmCall
  | codebaseWrite
deriving DecidableEq

/-- Embedding of `pipeline.CodebasePipeline.process_with_llm`: builds
the prompt (collaborator input), performs the chat call and, when
`return_code`, parses the reply. -/
def process_with_llm (_codebase : List (String × String))
    (_instruction : String) (return_code : Bool)
    (llm : Except String String) :
    Except String (String × List (String × String)) :=
  match llm with
  | Except.error e => Except.error e
  | Except.ok llm_response =>
    if return_code then Except.ok (parse_codebase_response llm_response)
    else Except.ok (llm_response, [])

/-- Embedding of `pipeline.CodebasePipeline.run` with its effect trace.
The logging setup and query log line run first, then the `None` checks
(raising `ValueError`, modeled as `Except.error`), then the delimiter
checks, then collection, the LLM call (an authentication failure
propagates: this `run` has no `try`), and finally the parsed files are
written only when the parsed mapping is truthy (non-empty). -/
def run (instruction user_id : String) (input_path output_path : Option String)
    (input_codebase : List (String × String)) (llm : Except String String) :
    List Effect × Except String String :=
  let eff0 : List Effect := [Effect.logOpen, Effect.logWrite]
  match input_path with
  | none =>
    (eff0, Except.error "input_path cannot be None. Please provide a valid directory path.")
  | some _ =>
    match output_path with
    | none =>
      (eff0, Except.error "output_path cannot be None. Please provide a valid directory path.")
    | some _ =>
      if BEGIN_DELIMITER = "" then
        (eff0, Except.error "Begining delimiter cannot be empty.")
      else if END_DELIMITER = "" then
        (eff0, Except.error "Ending delimiter cannot be empty.")
      else
        let eff1 := eff0 ++ [Effect.collectRead]
        match process_with_llm input_codebase instruction true llm with
        | Except.error e => (eff1 ++ [Effect.llmCall], Except.error e)
        | Except.ok parsed =>
          if parsed.2 = [] then (eff1 ++ [Effect.llmCall], Except.ok parsed.1)
          else (eff1 ++ [Effect.llmCall] ++ [Effect.codebaseWrite], Except.ok parsed.1)

/-- Shadow fold tracking only the `in_code_block` flag and counting the
lines consumed as code-block body lines (`current_content.append`). -/
def bodyStep (st : Bool × Nat) (line : String) : Bool × Nat :=
  if pyStartsWith (pyStrip line) BEGIN_DELIMITER then (true, st.2)
  else if pyStartsWith (pyStrip line) END_DELIMITER then (false, st.2)
  else if st.1 then (st.1, st.2 + 1)
  else st

/-- Number of lines of `response` that the parser consumes as body
lines of code blocks. -/
def bodyCount (response : String) : Nat :=
  ((splitNl response).foldl bodyStep (false, 0)).2

end pipeline

namespace file_ext

open PyStr

/-- Embedding of `CodebasePipeline.run` from `path/to/file.ext` (the
legacy orchestrator).  Its `parse_codebase_response` method is not part
of the source fragment, so the parsed reply `(text, mapping)` of the
success path is a collaborator input `parsed`.  The body validates the
paths, then runs collect/process/write inside
`try: ... except AuthenticationError:`, which replaces the result with
the fixed message `"No OpenAI API Key was provided."` instead of
raising.  `Except.error` models a raised exception. -/
def run (input_path output_path : Option String) (_instruction : String)
    (_input_codebase : List (String × String)) (return_code : Bool)
    (llm : Except String String) (parsed : String × List (String × String)) :
    Except String String :=
  match input_path with
  | none =>
    Except.error "input_path cannot be None. Please provide a valid directory path."
  | some _ =>
    match output_path with
    | none =>
      Except.error "output_path cannot be None. Please provide a valid directory path."
    | some _ =>
      match llm with
      | Except.error _ => Except.ok "No OpenAI API Key was provided."
      | Except.ok llm_response =>
        if return_code then Except.ok parsed.1 else Except.ok llm_response

end file_ext

open PyStr

/-- Claim C2 counterexample: with current codebase
`{a.py: 1, b.py: 2}` and a reply whose parsed mapping is
`{b.py: 3, c.py: 4}`, the session's codebase after `chat` is
`{b.py: 3, c.py: 4}`: the entry `a.py` is dropped, refuting the claimed
merge result `{a.py: 1, b.py: 3, c.py: 4}`. -/
theorem c2_merge_counterexample :
    ((pipeline.chat
        (pipeline.SessionState.mk [] [("a.py", "1"), ("b.py", "2")]) "msg"
        (Except.ok "b.py\n~~~```\n3\n```~~~\nc.py\n~~~```\n4\n```~~~")).1.current_codebase
      = [("b.py", "3"), ("c.py", "4")]) ∧
    lookupA (pipeline.chat
        (pipeline.SessionState.mk [] [("a.py", "1"), ("b.py", "2")]) "msg"
        (Except.ok "b.py\n~~~```\n3\n```~~~\nc.py\n~~~```\n4\n```~~~")).1.current_codebase
      "a.py" = none := by
  refine ⟨by decide, by decide⟩

/-- Claim C2 (amended): after `chat` parses a reply, a truthy
(non-empty) parsed mapping replaces the current codebase wholesale —
new and changed paths take effect, but paths present before and not
mentioned in the reply are dropped — while an empty parsed mapping
leaves the previous codebase unchanged (replace-if-nonempty, not
merge). -/
theorem c2_replace_semantics (st : pipeline.SessionState)
    (message llm_response : String) :
    (pipeline.chat st message (Except.ok llm_response)).1.current_codebase
      = (if (pipeline.parse_codebase_response llm_response).2 = []
         then st.current_codebase
         else (pipeline.parse_codebase_response llm_response).2) := rfl

/-- Claim C3 counterexample: the reply
`"Here is my explanation, no code changes needed."` contains a `'.'`,
so the heuristic parser absorbs the line as a candidate filename; the
returned free text is `""`, not the trimmed input. -/
theorem c3_free_text_counterexample :
    (pipeline.parse_codebase_response
        "Here is my explanation, no code changes needed.").1
      ≠ pyStrip "Here is my explanation, no code changes needed." := by
  decide

/-- Claim C3 (amended): for the example reply (which contains a `'.'`)
the parser returns free text `""` and an empty mapping, the line having
been consumed as a candidate filename; a free-text-only reply whose
line contains neither `'.'` nor `'/'` — the same sentence without the
final period — is returned as trimmed free text with an empty
mapping. -/
theorem c3_free_text_only :
    pipeline.parse_codebase_response
        "Here is my explanation, no code changes needed." = ("", []) ∧
    pipeline.parse_codebase_response
        "Here is my explanation, no code changes needed"
      = ("Here is my explanation, no code changes needed", []) := by
  refine ⟨by decide, by decide⟩

/-- Claim C4: both parsers are total Lean functions — every input
string, however malformed, yields a result (the embedding has no
failure path, mirroring the Python code, whose parse loops use no
raising operation): the empty reply gives empty free text and an empty
mapping in both variants, and a malformed reply (an unclosed code
block) degrades to an empty mapping without error. -/
theorem c4_parse_never_fatal :
    (∀ response, ∃ t m, pipeline.parse_codebase_response response = (t, m)) ∧
    (∀ response, ∃ m, codebase_pipeline.parse_codebase_response response = m) ∧
    pipeline.parse_codebase_response "" = ("", []) ∧
    codebase_pipeline.parse_codebase_response "" = [] ∧
    pipeline.parse_codebase_response "~~~```\nx = 1" = ("", []) := by
  refine ⟨fun response => ⟨_, _, rfl⟩, fun response => ⟨_, rfl⟩,
    by decide, by decide, by decide⟩

/-- Claim C5 (amended): `run` with a `None` input or output path
returns the descriptive `ValueError` before the codebase scan, the
network call and any output write — the trace contains neither
`collectRead`, `llmCall` nor `codebaseWrite` — but only after the
query-logging setup, which opens and writes the log file
`llm_queries.log`, a filesystem access that precedes validation. -/
theorem c5_fail_fast :
    (∀ instruction user_id output_path input_codebase llm,
      pipeline.run instruction user_id none output_path input_codebase llm
        = ([pipeline.Effect.logOpen, pipeline.Effect.logWrite],
           Except.error "input_path cannot be None. Please provide a valid directory path.")) ∧
    (∀ instruction user_id ip input_codebase llm,
      pipeline.run instruction user_id (some ip) none input_codebase llm
        = ([pipeline.Effect.logOpen, pipeline.Effect.logWrite],
           Except.error "output_path cannot be None. Please provide a valid directory path.")) :=
  ⟨fun _ _ _ _ _ => rfl, fun _ _ _ _ _ => rfl⟩

/-- Claim C5 counterexample: at the concrete call
`run("instr", "u1", input_path=None, output_path="out")` the
`ValueError` is indeed raised and no network access happens, but the
effect trace already contains the opening of and the write to the query
log file `llm_queries.log` (performed by `logging.basicConfig` and
`logging.info` before the validation), so the error is not raised
"before any filesystem access". -/
theorem c5_fail_fast_counterexample :
    (pipeline.run "instr" "u1" none (some "out") [] (Except.ok "reply")).2
      = Except.error "input_path cannot be None. Please provide a valid directory path." ∧
    pipeline.Effect.logOpen
      ∈ (pipeline.run "instr" "u1" none (some "out") [] (Except.ok "reply")).1 ∧
    pipeline.Effect.logWrite
      ∈ (pipeline.run "instr" "u1" none (some "out") [] (Except.ok "reply")).1 := by
  refine ⟨rfl, by decide, by decide⟩

/-- Claim C6: when the chat-completion collaborator fails with an
authentication error, the single-shot `run` of `path/to/file.ext`
recovers and returns the fixed user-facing message
`"No OpenAI API Key was provided."` instead of raising, while the
multi-turn `chat` of `pipeline.py` has no such recovery and propagates
the error to the caller. -/
theorem c6_auth_error_asymmetry :
    (∀ e ip op instruction input_codebase return_code parsed,
      file_ext.run (some ip) (some op) instruction input_codebase
        return_code (Except.error e) parsed
        = Except.ok "No OpenAI API Key was provided.") ∧
    (∀ st message e,
      (pipeline.chat st message (Except.error e)).2 = Except.error e) :=
  ⟨fun _ _ _ _ _ _ _ => rfl, fun _ _ _ => rfl⟩

namespace pipeline

open PyStr

theorem should_include_false_of_excluded (parts : List String)
    (h : ∃ d ∈ DEFAULT_DIRS, d ∈ parts) : _should_include parts = false := by
  obtain ⟨d, hd1, hd2⟩ := h
  have hany : DEFAULT_DIRS.any (fun excluded => decide (excluded ∈ parts)) = true := by
    rw [List.any_eq_true]
    exact ⟨d, hd1, by simpa using hd2⟩
  simp [_should_include, hany]

theorem collect_aux (rootParts : List String)
    (found : List (List String × Option String)) (key : String) :
    ∀ acc : List (String × String), key ∉ acc.map Prod.fst →
    (∀ e ∈ found, joinSlash e.1 = key →
      _should_include (rootParts ++ e.1) = false) →
    key ∉ (found.foldl (collectStep rootParts) acc).map Prod.fst := by
  induction found with
  | nil =>
    intro acc hacc _
    simpa using hacc
  | cons e rest ih =>
    intro acc hacc hex
    obtain ⟨rel, copt⟩ := e
    simp only [List.foldl_cons]
    apply ih
    · by_cases hinc : _should_include (rootParts ++ rel) = true
      · cases copt with
        | none => simpa [collectStep, hinc] using hacc
        | some content =>
          have hne : joinSlash rel ≠ key := by
            intro he
            have hfalse := hex (rel, some content) (List.mem_cons_self _ _) he
            rw [hfalse] at hinc
            exact absurd hinc (by simp)
          simp only [collectStep, hinc, if_true]
          simp only [insertA_keys_of_ne _ _ _ _ hne]
          exact hacc
      · have hfalse : _should_include (rootParts ++ rel) = false :=
          Bool.eq_false_iff.mpr (fun he => hinc he)
        simpa [collectStep, hfalse] using hacc
    · exact fun e' hm he => hex e' (List.mem_cons_of_mem _ hm) he

end pipeline

/-- Claim C7: a file found under the scanned root whose relative path
contains a component exactly equal to one of the excluded directory
names is never included in the mapping `collect_codebase` returns,
regardless of its extension (exclusion is tested on every found file
before any extension-filtered entry is stored).  The last hypothesis is
a model-level side condition: no differently-spelled found path
aliases the same joined key while being includable. -/
theorem c7_excluded_dirs_never_collected (rootParts : List String)
    (found : List (List String × Option String))
    (rel : List String) (c : Option String)
    (hmem : (rel, c) ∈ found)
    (hex : ∃ d ∈ pipeline.DEFAULT_DIRS, d ∈ rel)
    (halias : ∀ e ∈ found, pipeline.joinSlash e.1 = pipeline.joinSlash rel →
      ∃ d ∈ pipeline.DEFAULT_DIRS, d ∈ e.1) :
    lookupA (pipeline.collect_codebase rootParts found)
      (pipeline.joinSlash rel) = none := by
  apply lookupA_eq_none
  apply pipeline.collect_aux
  · simp
  · intro e hm he
    apply pipeline.should_include_false_of_excluded
    obtain ⟨d, hd1, hd2⟩ := halias e hm he
    exact ⟨d, hd1, List.mem_append_right _ hd2⟩

/-- Claim C7 witness: a concrete scan containing a file under
`node_modules` and a regular file; the excluded file's key is absent
from the result. -/
theorem c7_excluded_dirs_witness :
    lookupA (pipeline.collect_codebase ["proj"]
        [(["node_modules", "a.py"], some "x"), (["ok.py"], some "y")])
      (pipeline.joinSlash ["node_modules", "a.py"]) = none :=
  c7_excluded_dirs_never_collected ["proj"]
    [(["node_modules", "a.py"], some "x"), (["ok.py"], some "y")]
    ["node_modules", "a.py"] (some "x")
    (by decide) (by decide) (by decide)

/-- Claim C8: when the parsed reply mapping is empty, `run` performs no
output-codebase write (`write_codebase` is never invoked: no
`codebaseWrite` effect appears in the trace), this is not an error, and
`run` returns the free-text explanation. -/
theorem c8_empty_mapping_no_write (instruction user_id ip op : String)
    (input_codebase : List (String × String)) (reply : String)
    (hempty : (pipeline.parse_codebase_response reply).2 = []) :
    pipeline.run instruction user_id (some ip) (some op) input_codebase
        (Except.ok reply)
      = ([pipeline.Effect.logOpen, pipeline.Effect.logWrite,
          pipeline.Effect.collectRead, pipeline.Effect.llmCall],
         Except.ok (pipeline.parse_codebase_response reply).1) := by
  simp [pipeline.run, pipeline.process_with_llm, pipeline.BEGIN_DELIMITER,
    pipeline.END_DELIMITER, hempty]

/-- Claim C8 witness: the theorem applied to a purely textual reply. -/
theorem c8_empty_mapping_witness :
    pipeline.run "add docs" "u1" (some "in") (some "out") []
        (Except.ok "All good")
      = ([pipeline.Effect.logOpen, pipeline.Effect.logWrite,
          pipeline.Effect.collectRead, pipeline.Effect.llmCall],
         Except.ok "All good") :=
  (c8_empty_mapping_no_write "add docs" "u1" "in" "out" [] "All good"
    (by decide)).trans
    (by rw [show (pipeline.parse_codebase_response "All good").1 = "All good"
      from by decide])

namespace pipeline

/-- A session operation: loading a codebase into context, or one chat
turn (whose collaborator reply either succeeds or fails). -/
inductive Op
  | loadOp (collected : List (String × String))
  | chatOp (message : String) (llm : Except String String)

/-- State transition of one session operation. -/
def applyOp (st : SessionState) : Op → SessionState
  | Op.loadOp collected => load_codebase st collected
  | Op.chatOp message llm => (chat st message llm).1

theorem applyOp_history_extends (st : SessionState) (op : Op) :
    ∃ tail, (applyOp st op).conversation_history
      = st.conversation_history ++ tail := by
  cases op with
  | loadOp collected => exact ⟨_, rfl⟩
  | chatOp message llm =>
    cases llm with
    | error e => exact ⟨_, rfl⟩
    | ok r =>
      exact ⟨[Message.mk "user" message, Message.mk "assistant" r],
        by simp [applyOp, chat]⟩

end pipeline

/-- Claim C9: across every sequence of `load_codebase` and `chat`
operations the conversation history is append-only and FIFO-ordered —
every prior turn list stays, unchanged and in order, as a prefix of the
later history — and `reset_conversation` unconditionally empties both
the history and the current codebase. -/
theorem c9_history_append_only_reset_clears :
    (∀ (ops : List pipeline.Op) (st : pipeline.SessionState), ∃ tail,
      (ops.foldl pipeline.applyOp st).conversation_history
        = st.conversation_history ++ tail) ∧
    (∀ st : pipeline.SessionState,
      (pipeline.reset_conversation st).conversation_history = [] ∧
      (pipeline.reset_conversation st).current_codebase = []) := by
  constructor
  · intro ops
    induction ops with
    | nil => exact fun st => ⟨[], by simp⟩
    | cons op rest ih =>
      intro st
      obtain ⟨t1, h1⟩ := pipeline.applyOp_history_extends st op
      obtain ⟨t2, h2⟩ := ih (pipeline.applyOp st op)
      exact ⟨t1 ++ t2, by rw [List.foldl_cons, h2, h1, List.append_assoc]⟩
  · exact fun st => ⟨rfl, rfl⟩

namespace pipeline

open PyStr

theorem parseStep_nonblock_fields (st : PState) (line : String)
    (hbegin : ¬ pyStartsWith (pyStrip line) BEGIN_DELIMITER = true)
    (hend : ¬ pyStartsWith (pyStrip line) END_DELIMITER = true)
    (hinb : st.in_code_block = false) :
    (parseStep st line).codebase = st.codebase ∧
    (parseStep st line).current_content = st.current_content ∧
    (parseStep st line).in_code_block = false := by
  have hb : ¬ (st.in_code_block = true) := by rw [hinb]; simp
  unfold parseStep
  rw [if_neg hbegin, if_neg hend, if_neg hb]
  split
  · split
    · split
      · exact ⟨rfl, rfl, hinb⟩
      · exact ⟨rfl, rfl, hinb⟩
    · exact ⟨rfl, rfl, hinb⟩
  · exact ⟨rfl, rfl, hinb⟩

theorem c10_step (st : PState) (bn : Bool × Nat) (line : String)
    (h1 : st.in_code_block = bn.1)
    (h2 : st.codebase.length + st.current_content.length ≤ bn.2) :
    (parseStep st line).in_code_block = (bodyStep bn line).1 ∧
    (parseStep st line).codebase.length
      + (parseStep st line).current_content.length ≤ (bodyStep bn line).2 := by
  by_cases hbegin : pyStartsWith (pyStrip line) BEGIN_DELIMITER = true
  · constructor <;> simp [parseStep, bodyStep, hbegin, h2]
  · by_cases hend : pyStartsWith (pyStrip line) END_DELIMITER = true
    · cases hcf : st.current_file with
      | none =>
        constructor <;> simp [parseStep, bodyStep, hbegin, hend, hcf, h2]
      | some f =>
        by_cases hg : f ≠ "" ∧ st.current_content ≠ []
        · have hcc : 1 ≤ st.current_content.length := by
            rcases hc : st.current_content with _ | ⟨a, b⟩
            · exact absurd hc hg.2
            · simp
          have hins := insertA_length_le st.codebase f (joinNl st.current_content)
          constructor
          · simp [parseStep, bodyStep, hbegin, hend, hcf, hg]
          · simp only [parseStep, bodyStep]
            simp only [if_neg hbegin, if_pos hend, hcf, if_pos hg]
            simp only [List.length_nil]
            omega
        · constructor <;> simp [parseStep, bodyStep, hbegin, hend, hcf, hg, h2]
    · cases hinb : st.in_code_block with
      | true =>
        have hb1 : bn.1 = true := by rw [← h1, hinb]
        constructor
        · simp [parseStep, bodyStep, hbegin, hend, hinb, hb1]
        · simp only [parseStep, bodyStep]
          simp only [if_neg hbegin, if_neg hend, hinb, hb1, if_pos]
          simp only [List.length_append, List.length_singleton]
          omega
      | false =>
        have hb1 : bn.1 = false := by rw [← h1, hinb]
        obtain ⟨hcb, hcc, hib⟩ := parseStep_nonblock_fields st line hbegin hend hinb
        have hbody : bodyStep bn line = bn := by
          simp [bodyStep, hbegin, hend, hb1]
        rw [hbody, hcb, hcc, hib, hb1]
        exact ⟨rfl, h2⟩

theorem finishParse_length_le (st : PState) :
    (finishParse st).2.length
      ≤ st.codebase.length + st.current_content.length := by
  unfold finishParse
  cases hcf : st.current_file with
  | none => simp
  | some f =>
    by_cases hg : f ≠ "" ∧ st.current_content ≠ []
    · have hins := insertA_length_le st.codebase f (joinNl st.current_content)
      have hcc : 1 ≤ st.current_content.length := by
        rcases hc : st.current_content with _ | ⟨a, b⟩
        · exact absurd hc hg.2
        · simp
      simp only [if_pos hg]
      omega
    · simp only [if_neg hg]
      omega

theorem c10_fold_invariant (lines : List String) :
    ∀ (st : PState) (bn : Bool × Nat),
    st.in_code_block = bn.1 →
    st.codebase.length + st.current_content.length ≤ bn.2 →
    ((lines.foldl parseStep st).in_code_block
        = (lines.foldl bodyStep bn).1) ∧
    (lines.foldl parseStep st).codebase.length
        + (lines.foldl parseStep st).current_content.length
      ≤ (lines.foldl bodyStep bn).2 := by
  induction lines with
  | nil => exact fun st bn h1 h2 => ⟨h1, h2⟩
  | cons line rest ih =>
    intro st bn h1 h2
    obtain ⟨h1', h2'⟩ := c10_step st bn line h1 h2
    simpa only [List.foldl_cons] using ih (parseStep st line) (bodyStep bn line) h1' h2'

end pipeline

/-- Claim C10: in the heuristic begin/end parser, a file block whose
body is empty (a BEGIN delimiter line immediately followed by an END
delimiter line) produces no entry in the result mapping — shown
concretely — and for every reply each path in the returned mapping was
accumulated from at least one body line: the number of entries never
exceeds the number of lines consumed inside code blocks. -/
theorem c10_empty_block_no_entry :
    pipeline.parse_codebase_response "f.py\n~~~```\n```~~~" = ("", []) ∧
    (∀ response, (pipeline.parse_codebase_response response).2.length
        ≤ pipeline.bodyCount response) := by
  constructor
  · decide
  · intro response
    obtain ⟨_, hle⟩ := pipeline.c10_fold_invariant (splitNl response)
      (pipeline.PState.mk [] none [] [] false) (false, 0) rfl (by simp)
    have hfin := pipeline.finishParse_length_le
      ((splitNl response).foldl pipeline.parseStep
        (pipeline.PState.mk [] none [] [] false))
    unfold pipeline.parse_codebase_response pipeline.bodyCount
    omega
